import Mathlib

/-!
Verification of the online pose-graph SLAM core described by the
repository's notes (`src/pose-graph-slam/readme_notes.ipynb`) and its
specification.  The repository itself ships no implementation — it is a
notebook of lecture notes with one empty code cell — so every definition
below is a shallow model of the component the specification describes,
marked `Modelled from the spec:`.

Conventions of the model:
* Angles are rational numbers measured in units of π radians, so the
  radian interval (-π, π] corresponds to the rational interval (-1, 1].
  `degAngle d` converts d degrees into these units (180° = 1).
* All arithmetic is exact over ℚ; the spec's "numerical tolerance"
  degenerates to exactness.
* Trigonometric values are exact on quarter-turn multiples (the subgrid
  exercised by every concrete scenario below); elsewhere the model picks
  the neutral value 0.  No theorem below depends on off-grid values.
-/

namespace Slam

/-- Modelled from the spec: normalization of an angle (in π units) into the
half-open interval (-1, 1], i.e. (-π, π] in radians. -/
def wrapAngle (a : ℚ) : ℚ := a - 2 * (⌈(a - 1) / 2⌉ : ℤ)

/-- Conversion from degrees to the model's π-unit angles (180° = 1). -/
def degAngle (d : ℚ) : ℚ := d / 180

/-- Modelled from the spec: cosine of an angle of u·π radians, exact on
quarter-turn multiples and defaulting to 0 elsewhere. -/
def cospi (u : ℚ) : ℚ :=
  let r := u - 2 * (⌊u / 2⌋ : ℤ)
  if r = 0 then 1 else if r = 1 then -1 else 0

/-- Modelled from the spec: sine of an angle of u·π radians, exact on
quarter-turn multiples and defaulting to 0 elsewhere. -/
def sinpi (u : ℚ) : ℚ :=
  let r := u - 2 * (⌊u / 2⌋ : ℤ)
  if r = 1 / 2 then 1 else if r = 3 / 2 then -1 else 0

/-- Measurement / residual vectors: three rational components
(x, y, angle); Observation edges leave the third component 0. -/
abbrev Vec3 := ℚ × ℚ × ℚ

/-- A 3×3 rational matrix stored as its three rows. -/
abbrev Mat3 := Vec3 × Vec3 × Vec3

/-- Dot product of two 3-vectors. -/
def dot3 (a b : Vec3) : ℚ := a.1 * b.1 + a.2.1 * b.2.1 + a.2.2 * b.2.2

/-- Matrix–vector product. -/
def mat3Mulv (m : Mat3) (v : Vec3) : Vec3 :=
  (dot3 m.1 v, dot3 m.2.1 v, dot3 m.2.2 v)

/-- Matrix transpose. -/
def mat3T (m : Mat3) : Mat3 :=
  ((m.1.1, m.2.1.1, m.2.2.1),
   (m.1.2.1, m.2.1.2.1, m.2.2.2.1),
   (m.1.2.2, m.2.1.2.2, m.2.2.2.2))

/-- Matrix–matrix product. -/
def mat3Mul (m n : Mat3) : Mat3 :=
  let c1 : Vec3 := (n.1.1, n.2.1.1, n.2.2.1)
  let c2 : Vec3 := (n.1.2.1, n.2.1.2.1, n.2.2.2.1)
  let c3 : Vec3 := (n.1.2.2, n.2.1.2.2, n.2.2.2.2)
  ((dot3 m.1 c1, dot3 m.1 c2, dot3 m.1 c3),
   (dot3 m.2.1 c1, dot3 m.2.1 c2, dot3 m.2.1 c3),
   (dot3 m.2.2 c1, dot3 m.2.2 c2, dot3 m.2.2 c3))

/-- Quadratic form eᵀ·Ω·e, an edge's weighted squared residual. -/
def qform (om : Mat3) (e : Vec3) : ℚ := dot3 e (mat3Mulv om e)

/-- The 3×3 identity matrix. -/
def id3 : Mat3 := ((1, 0, 0), (0, 1, 0), (0, 0, 1))

/-- Modelled from the spec: a node's state — a 2D pose [x, y, θ] or a
landmark position [x, y]. -/
inductive NodeState where
  | pose (x y th : ℚ)
  | landmark (x y : ℚ)
deriving DecidableEq

/-- Position components of a node state. -/
def NodeState.posx : NodeState → ℚ
  | .pose x _ _ => x
  | .landmark x _ => x

/-- Position components of a node state. -/
def NodeState.posy : NodeState → ℚ
  | .pose _ y _ => y
  | .landmark _ y => y

/-- Orientation of a node state (0 for landmarks). -/
def NodeState.ang : NodeState → ℚ
  | .pose _ _ th => th
  | .landmark _ _ => 0

/-- Modelled from the spec: a graph node — unique id, state estimate, and
an anchored flag (nodes are never destroyed, only marked anchored). -/
structure Node where
  nid : ℕ
  state : NodeState
  anchored : Bool
deriving DecidableEq

/-- Modelled from the spec: the edge type tag. -/
inductive EdgeType where
  | odometry
  | loopClosure
  | observation
deriving DecidableEq

/-- Modelled from the spec: a graph edge — unique id, type, ordered node
pair, measurement z, information matrix Ω, and an active flag (deactivated
edges are excluded from optimization but never physically removed). -/
structure Edge where
  eid : ℕ
  ty : EdgeType
  i : ℕ
  j : ℕ
  z : Vec3
  info : Mat3
  active : Bool
deriving DecidableEq

/-- Modelled from the spec: the Graph Store — node list, edge list, and
fresh-id counters. -/
structure GraphStore where
  nodes : List Node
  edges : List Edge
  nextNodeId : ℕ
  nextEdgeId : ℕ
deriving DecidableEq

/-- Look a node up by id. -/
def lookupNode (ns : List Node) (i : ℕ) : Option Node :=
  ns.find? (fun n => n.nid == i)

/-- State of node `i`, defaulting to the origin pose for absent ids
(ingestion validation rejects edges to absent ids before this matters). -/
def stateOf (ns : List Node) (i : ℕ) : NodeState :=
  ((lookupNode ns i).map Node.state).getD (NodeState.pose 0 0 0)

/-- Modelled from the spec: the error taxonomy raised at ingestion. -/
inductive SlamError where
  | invalidReference
  | illConditioned
deriving DecidableEq

/-- Modelled from the spec (4.2): the predicted measurement h(x_i, x_j).
For pose-pose edges it is the relative transform (R(θᵢ)ᵀ(tⱼ−tᵢ), θⱼ−θᵢ);
for pose→landmark Observation edges it is the landmark position expressed
in the pose's frame, with a vacuous third component. -/
def predict (ty : EdgeType) (si sj : NodeState) : Vec3 :=
  let c := cospi si.ang
  let s := sinpi si.ang
  let dx := sj.posx - si.posx
  let dy := sj.posy - si.posy
  match ty with
  | .observation => (c * dx + s * dy, -s * dx + c * dy, 0)
  | _ => (c * dx + s * dy, -s * dx + c * dy, sj.ang - si.ang)

/-- Modelled from the spec (4.2): the residual z − predicted, with the
angle-valued third component wrapped into (-π, π] for pose-pose edges;
Observation edges carry no angle component. -/
def residual (ty : EdgeType) (z p : Vec3) : Vec3 :=
  match ty with
  | .observation => (z.1 - p.1, z.2.1 - p.2.1, z.2.2 - p.2.2)
  | _ => (z.1 - p.1, z.2.1 - p.2.1, wrapAngle (z.2.2 - p.2.2))

/-- Modelled from the spec (4.2): the analytic Jacobians (J_i, J_j) of the
residual with respect to the two node states, in the standard 2D form
(for Observation edges the angle row is vacuous). -/
def jacobians (ty : EdgeType) (si sj : NodeState) : Mat3 × Mat3 :=
  let c := cospi si.ang
  let s := sinpi si.ang
  let dx := sj.posx - si.posx
  let dy := sj.posy - si.posy
  match ty with
  | .observation =>
      (((c, s, s * dx - c * dy), (-s, c, c * dx + s * dy), (0, 0, 0)),
       ((-c, -s, 0), (s, -c, 0), (0, 0, 0)))
  | _ =>
      (((c, s, s * dx - c * dy), (-s, c, c * dx + s * dy), (0, 0, 1)),
       ((-c, -s, 0), (s, -c, 0), (0, 0, -1)))

/-- Modelled from the spec: the positive-semidefiniteness test applied to an
information matrix at ingestion — symmetry together with Sylvester's
principal-minor criterion (all seven principal minors nonnegative), exact
over ℚ (the spec's numerical tolerance degenerates to exactness). -/
def isPSD3 (m : Mat3) : Bool :=
  let a := m.1.1;     let b := m.1.2.1;     let c := m.1.2.2
  let d := m.2.1.1;   let e := m.2.1.2.1;   let f := m.2.1.2.2
  let g := m.2.2.1;   let h := m.2.2.2.1;   let i := m.2.2.2.2
  (b == d) && (c == g) && (f == h) &&
  decide (0 ≤ a) && decide (0 ≤ e) && decide (0 ≤ i) &&
  decide (0 ≤ a * e - b * d) && decide (0 ≤ a * i - c * g) &&
  decide (0 ≤ e * i - f * h) &&
  decide (0 ≤ a * (e * i - f * h) - b * (d * i - f * g) + c * (d * h - e * g))

/-- Modelled from the spec (4.1): `add_pose_node` appends a pose node seeded
with the initial guess; the first node added is conventionally anchored to
remove the gauge freedom, later ones are not. -/
def addPoseNode (g : GraphStore) (x y th : ℚ) : GraphStore × ℕ :=
  ({ g with
      nodes := g.nodes ++ [⟨g.nextNodeId, .pose x y th, g.nodes.isEmpty⟩],
      nextNodeId := g.nextNodeId + 1 },
   g.nextNodeId)

/-- Modelled from the spec (4.1): `add_landmark_node` appends a landmark
node seeded with the initial guess; landmarks are never anchored. -/
def addLandmarkNode (g : GraphStore) (x y : ℚ) : GraphStore × ℕ :=
  ({ g with
      nodes := g.nodes ++ [⟨g.nextNodeId, .landmark x y, false⟩],
      nextNodeId := g.nextNodeId + 1 },
   g.nextNodeId)

/-- Modelled from the spec (4.1): `add_edge` — rejects with
`InvalidReference` when either referenced node id is unknown, then with
`IllConditioned` when the information matrix fails the PSD test; on
failure the store is returned unchanged, otherwise the edge is appended
in the active state under a fresh id. -/
def addEdge (g : GraphStore) (ty : EdgeType) (i j : ℕ) (z : Vec3)
    (om : Mat3) : GraphStore × Except SlamError ℕ :=
  if (lookupNode g.nodes i).isNone || (lookupNode g.nodes j).isNone then
    (g, .error .invalidReference)
  else if !(isPSD3 om) then
    (g, .error .illConditioned)
  else
    ({ g with
        edges := g.edges ++ [⟨g.nextEdgeId, ty, i, j, z, om, true⟩],
        nextEdgeId := g.nextEdgeId + 1 },
     .ok g.nextEdgeId)

/-- Modelled from the spec (4.1): `deactivate_edge` marks the edge excluded
from future optimization without removing its identifier. -/
def deactivateEdge (g : GraphStore) (e : ℕ) : GraphStore :=
  { g with
      edges := g.edges.map (fun ed =>
        if ed.eid == e then { ed with active := false } else ed) }

/-- The comparison graph of the spec's deactivation property, following the
spec's words: the same store rebuilt with the edge physically removed. -/
def removeEdge (g : GraphStore) (e : ℕ) : GraphStore :=
  { g with edges := g.edges.filter (fun ed => !(ed.eid == e)) }

/-- The edges that participate in optimization. -/
def activeEdges (g : GraphStore) : List Edge := g.edges.filter (·.active)

/-- Residual of an edge at the current node estimates. -/
def edgeResidual (ns : List Node) (e : Edge) : Vec3 :=
  residual e.ty e.z (predict e.ty (stateOf ns e.i) (stateOf ns e.j))

/-- Modelled from the spec (4.3): one edge's contribution J^T·Ω·J to the
block of `H` indexed by the node pair (a, b). -/
def contribH (ns : List Node) (e : Edge) (a b : ℕ) : Mat3 :=
  let jc := jacobians e.ty (stateOf ns e.i) (stateOf ns e.j)
  (if e.i = a ∧ e.i = b then mat3Mul (mat3T jc.1) (mat3Mul e.info jc.1) else 0) +
  (if e.i = a ∧ e.j = b then mat3Mul (mat3T jc.1) (mat3Mul e.info jc.2) else 0) +
  (if e.j = a ∧ e.i = b then mat3Mul (mat3T jc.2) (mat3Mul e.info jc.1) else 0) +
  (if e.j = a ∧ e.j = b then mat3Mul (mat3T jc.2) (mat3Mul e.info jc.2) else 0)

/-- Modelled from the spec (4.3): one edge's contribution J^T·Ω·e to the
block of `b` indexed by node a. -/
def contribB (ns : List Node) (e : Edge) (a : ℕ) : Vec3 :=
  let jc := jacobians e.ty (stateOf ns e.i) (stateOf ns e.j)
  let r := edgeResidual ns e
  (if e.i = a then mat3Mulv (mat3T jc.1) (mat3Mulv e.info r) else 0) +
  (if e.j = a then mat3Mulv (mat3T jc.2) (mat3Mulv e.info r) else 0)

/-- Modelled from the spec (4.3): the Linear System Builder's block-sparse
`H`, accumulated edge by edge over the edge list, skipping inactive
edges. -/
def buildH (es : List Edge) (ns : List Node) : ℕ → ℕ → Mat3 :=
  es.foldl
    (fun acc e =>
      if e.active then (fun a b => acc a b + contribH ns e a b) else acc)
    (fun _ _ => 0)

/-- Modelled from the spec (4.3): the Linear System Builder's block `b`,
accumulated edge by edge over the edge list, skipping inactive edges. -/
def buildB (es : List Edge) (ns : List Node) : ℕ → Vec3 :=
  es.foldl
    (fun acc e => if e.active then (fun a => acc a + contribB ns e a) else acc)
    (fun _ => 0)

/-- Modelled from the spec: the total weighted residual cost
Σ e_ij^T·Ω_ij·e_ij over the active edges. -/
def costE (es : List Edge) (ns : List Node) : ℚ :=
  es.foldl
    (fun acc e => if e.active then acc + qform e.info (edgeResidual ns e) else acc)
    0

/-- The rows of a 3×3 matrix by index. -/
def m3row (m : Mat3) (k : ℕ) : Vec3 :=
  match k with
  | 0 => m.1
  | 1 => m.2.1
  | _ => m.2.2

/-- A 3-vector as a list of its components. -/
def vec3List (v : Vec3) : List ℚ := [v.1, v.2.1, v.2.2]

/-- Modelled from the spec (4.3): the unknowns of the normal-equation
system — the non-anchored nodes, in store order (anchored nodes are
excluded from the unknown vector to fix the gauge). -/
def unknownsOf (ns : List Node) : List Node := ns.filter (fun n => !n.anchored)

/-- The flattened dense `H` over the unknown nodes (3 scalar rows per
node), assembled from the block-sparse `buildH`. -/
def flatH (es : List Edge) (ns : List Node) : List (List ℚ) :=
  let us := unknownsOf ns
  us.flatMap (fun nr =>
    ([0, 1, 2] : List ℕ).map (fun r =>
      us.flatMap (fun nc => vec3List (m3row (buildH es ns nr.nid nc.nid) r))))

/-- The flattened right-hand side `b` over the unknown nodes. -/
def flatB (es : List Edge) (ns : List Node) : List ℚ :=
  (unknownsOf ns).flatMap (fun nr => vec3List (buildB es ns nr.nid))

/-- Levenberg-Marquardt damping: λ added on the diagonal of the flattened
system. -/
def addDiag (m : List (List ℚ)) (lam : ℚ) : List (List ℚ) :=
  m.enum.map (fun p =>
    p.2.enum.map (fun q => if p.1 = q.1 then q.2 + lam else q.2))

/-- Dot product of two coefficient lists. -/
def dotL (a b : List ℚ) : ℚ := (List.zipWith (· * ·) a b).sum

/-- One pivot search of the elimination: the first row whose leading
coefficient is nonzero, together with the remaining rows. -/
def pickPivot : List (List ℚ × ℚ) → Option ((List ℚ × ℚ) × List (List ℚ × ℚ))
  | [] => none
  | r :: rest =>
    if r.1.headD 0 ≠ 0 then some (r, rest)
    else
      match pickPivot rest with
      | none => none
      | some (p, others) => some (p, r :: others)

/-- Elimination of a row against the pivot row (both lose their leading
column). -/
def reduceRow (p r : List ℚ × ℚ) : List ℚ × ℚ :=
  let f := r.1.headD 0 / p.1.headD 0
  (List.zipWith (fun x y => x - f * y) r.1.tail p.1.tail, r.2 - f * p.2)

/-- Modelled from the spec (4.4): the direct solve of the damped normal
equations, by Gaussian elimination with back substitution over ℚ (standing
in for the spec's sparse Cholesky); `none` signals a singular system. -/
def gaussRec : ℕ → List (List ℚ × ℚ) → Option (List ℚ)
  | 0, _ => some []
  | n + 1, rows =>
    match pickPivot rows with
    | none => none
    | some (p, rest) =>
      match gaussRec n (rest.map (reduceRow p)) with
      | none => none
      | some xs => some ((p.2 - dotL p.1.tail xs) / p.1.headD 0 :: xs)

/-- Solve the square system given as a coefficient-row list and RHS. -/
def gaussSolve (a : List (List ℚ)) (b : List ℚ) : Option (List ℚ) :=
  gaussRec a.length (List.zip a b)

/-- Modelled from the spec (4.4): assemble and solve the λ-damped normal
equations `(H + λI)·Δx = b` at the current estimates. -/
def solveDamped (es : List Edge) (ns : List Node) (lam : ℚ) : Option (List ℚ) :=
  gaussSolve (addDiag (flatH es ns) lam) (flatB es ns)

/-- Modelled from the spec (4.2, 4.4): apply a local update to one node
state — additive on positions, exponential-map composition (additive plus
wrap) on the orientation. -/
def updState (s : NodeState) (d : List ℚ) : NodeState :=
  match s with
  | .pose x y th =>
      .pose (x + d.getD 0 0) (y + d.getD 1 0) (wrapAngle (th + d.getD 2 0))
  | .landmark x y => .landmark (x + d.getD 0 0) (y + d.getD 1 0)

/-- Distribute the flattened update vector over the nodes: each
non-anchored node consumes three entries in store order; anchored nodes
are left untouched. -/
def applyUpdate : List Node → List ℚ → List Node
  | [], _ => []
  | n :: rest, d =>
    if n.anchored then n :: applyUpdate rest d
    else { n with state := updState n.state (d.take 3) } :: applyUpdate rest (d.drop 3)

/-- Relative cost improvement, as used by the convergence test. -/
def relImprove (c c' : ℚ) : ℚ := (c - c') / max c 1

/-- Modelled from the spec (4.4): the solver's terminal statuses. -/
inductive SolveStatus where
  | converged
  | diverged
  | singularSystem
  | iterBudget
deriving DecidableEq

/-- Outcome of the damped retry loop inside one solver iteration. -/
inductive AttemptResult where
  | accepted (ns : List Node) (lam : ℚ)
  | singular
  | exhausted
deriving DecidableEq

/-- Modelled from the spec (4.4): one Levenberg-Marquardt iteration — solve
the damped system, apply the update, and accept when the recomputed cost
did not increase; otherwise reject the step (keeping the pre-step
estimate), raise λ and retry within the bounded retry budget. -/
def attemptStep (es : List Edge) (ns : List Node) (lam : ℚ) :
    ℕ → AttemptResult
  | 0 => .exhausted
  | r + 1 =>
    match solveDamped es ns lam with
    | none => .singular
    | some dx =>
      let cand := applyUpdate ns dx
      if costE es cand ≤ costE es ns then .accepted cand (lam / 10)
      else attemptStep es ns (lam * 10) r

/-- Modelled from the spec (4.4): the solver loop — repeat damped
iterations until the relative improvement falls below the tolerance
(Converged), the retry budget is exceeded (Diverged), or the system is
singular; failure statuses report the estimate current when the failure
was detected. -/
def lmLoop (eps : ℚ) (es : List Edge) (ns : List Node) (lam : ℚ)
    (rb : ℕ) : ℕ → SolveStatus × List Node
  | 0 => (.iterBudget, ns)
  | it + 1 =>
    match attemptStep es ns lam rb with
    | .singular => (.singularSystem, ns)
    | .exhausted => (.diverged, ns)
    | .accepted cand lam' =>
      if relImprove (costE es ns) (costE es cand) < eps then (.converged, cand)
      else lmLoop eps es cand lam' rb it

/-- An accepted Levenberg-Marquardt step: the successor estimate is
obtained from the damped solve at some damping and its recomputed cost did
not increase. -/
def AcceptStep (es : List Edge) (a b : List Node) : Prop :=
  ∃ lam dx, solveDamped es a lam = some dx ∧ b = applyUpdate a dx ∧
    costE es b ≤ costE es a

/-- Modelled from the spec (3): every edge references existing nodes. -/
def refsOK (g : GraphStore) : Prop :=
  ∀ e ∈ g.edges,
    (lookupNode g.nodes e.i).isSome = true ∧
    (lookupNode g.nodes e.j).isSome = true

/-- Modelled from the spec (3): every stored information matrix passes the
symmetric-PSD test. -/
def infosOK (g : GraphStore) : Prop := ∀ e ∈ g.edges, isPSD3 e.info = true

/-- Modelled from the spec (3): exactly one node anchors the global
frame. -/
def oneAnchor (g : GraphStore) : Prop :=
  (g.nodes.filter (·.anchored)).length = 1

/-- The structural part of the graph-store invariant. -/
def wfCore (g : GraphStore) : Prop := refsOK g ∧ infosOK g ∧ oneAnchor g

/-- Two node ids joined by some edge of the store (in either direction). -/
def adjacentIn (g : GraphStore) (a b : ℕ) : Prop :=
  ∃ e ∈ g.edges, (e.i = a ∧ e.j = b) ∨ (e.j = a ∧ e.i = b)

/-- Modelled from the spec (3): every node reachable from an anchored node
via edges. -/
def connectedStore (g : GraphStore) : Prop :=
  ∀ n ∈ g.nodes, ∃ a ∈ g.nodes, a.anchored = true ∧
    Relation.ReflTransGen (adjacentIn g) a.nid n.nid

/-- The full graph-store invariant of the spec, connectivity included. -/
def wfStore (g : GraphStore) : Prop := wfCore g ∧ connectedStore g

set_option maxRecDepth 1000000

/-- Modelled from the spec (8): the empty store. -/
def squareBase : GraphStore := ⟨[], [], 0, 0⟩

/-- Modelled from the spec (8): four poses around the unit square, each
seeded from noise-free odometry propagation (move forward 1, turn left
90°); the first pose is the anchor. -/
def squareNodes : GraphStore :=
  (addPoseNode (addPoseNode (addPoseNode (addPoseNode squareBase 0 0 0).1
    1 0 (1 / 2)).1 1 1 1).1 0 1 (-(1 / 2))).1

/-- Modelled from the spec (8): the 4-node square loop — the four poses
joined in a cycle by four noise-free odometry edges, each measuring
(1, 0, 90°) with identity information. -/
def squareLoop : GraphStore :=
  (addEdge (addEdge (addEdge (addEdge squareNodes
    .odometry 0 1 (1, 0, 1 / 2) id3).1
    .odometry 1 2 (1, 0, 1 / 2) id3).1
    .odometry 2 3 (1, 0, 1 / 2) id3).1
    .odometry 3 0 (1, 0, 1 / 2) id3).1

/-- The wrapped angle always lands in the half-open interval (-1, 1],
i.e. (-π, π] in radians. -/
theorem wrapAngle_mem (a : ℚ) : -1 < wrapAngle a ∧ wrapAngle a ≤ 1 := by
  unfold wrapAngle
  constructor
  · have h : ((⌈(a - 1) / 2⌉ : ℤ) : ℚ) < (a - 1) / 2 + 1 :=
      Int.ceil_lt_add_one ((a - 1) / 2)
    linarith
  · have h : (a - 1) / 2 ≤ ((⌈(a - 1) / 2⌉ : ℤ) : ℚ) :=
      Int.le_ceil ((a - 1) / 2)
    linarith

/-- Wrapping fixes zero. -/
theorem wrapAngle_zero : wrapAngle 0 = 0 := by with_unfolding_all rfl

/-- C2: for every 2D edge, the angle-valued residual component (the third
component of a pose-pose residual; Observation residuals have no
angle-valued component) lies in (-π, π] — here (-1, 1] in the model's
π-unit angles — and for a two-pose odometry edge with a 350° measured turn
against a 10° true turn difference the angle residual is -20°, not
340°. -/
theorem angle_residual_wrapped_and_350_vs_10_gives_minus_20 :
    (∀ z p : Vec3,
      (-1 < (residual .odometry z p).2.2 ∧ (residual .odometry z p).2.2 ≤ 1) ∧
      (-1 < (residual .loopClosure z p).2.2 ∧
        (residual .loopClosure z p).2.2 ≤ 1)) ∧
    (residual .odometry (0, 0, degAngle 350) (0, 0, degAngle 10)).2.2
      = degAngle (-20) := by
  refine ⟨fun z p => ⟨?_, ?_⟩, ?_⟩
  · simpa [residual] using wrapAngle_mem (z.2.2 - p.2.2)
  · simpa [residual] using wrapAngle_mem (z.2.2 - p.2.2)
  · show wrapAngle (degAngle 350 - degAngle 10) = degAngle (-20)
    with_unfolding_all rfl

/-- C5: for every edge type, the residual evaluated at a measurement that
equals the model prediction is exactly zero. -/
theorem residual_zero_at_true_state (ty : EdgeType) (si sj : NodeState) :
    residual ty (predict ty si sj) (predict ty si sj) = 0 := by
  cases ty <;>
    simp [residual, Prod.ext_iff, sub_self, wrapAngle_zero]

/-- Accumulating a commutative-monoid contribution over an edge list while
skipping inactive edges equals the sum of the contributions of the active
sublist. -/
theorem foldl_active_sum {M : Type} [AddCommMonoid M] (f : Edge → M) :
    ∀ (l : List Edge) (acc : M),
      l.foldl (fun a e => if e.active then a + f e else a) acc
        = acc + ((l.filter (·.active)).map f).sum := by
  intro l
  induction l with
  | nil => intro acc; simp
  | cons e t ih =>
    intro acc
    by_cases h : e.active
    · simp [List.filter_cons, h, ih, add_assoc]
    · simp [List.filter_cons, h, ih]

/-- Pointwise form of `foldl_active_sum` for the function-valued
accumulator used by `buildH`. -/
theorem buildH_block (es : List Edge) (ns : List Node) (a b : ℕ) :
    buildH es ns a b
      = ((es.filter (·.active)).map (fun e => contribH ns e a b)).sum := by
  unfold buildH
  suffices h : ∀ (l : List Edge) (acc : ℕ → ℕ → Mat3),
      (l.foldl
        (fun acc e =>
          if e.active then (fun a b => acc a b + contribH ns e a b) else acc)
        acc) a b
        = acc a b + ((l.filter (·.active)).map (fun e => contribH ns e a b)).sum by
    simpa using h es (fun _ _ => 0)
  intro l
  induction l with
  | nil => intro acc; simp
  | cons e t ih =>
    intro acc
    by_cases h : e.active
    · simp [List.filter_cons, h, ih, add_assoc]
    · simp [List.filter_cons, h, ih]

/-- Pointwise form of `foldl_active_sum` for the function-valued
accumulator used by `buildB`. -/
theorem buildB_block (es : List Edge) (ns : List Node) (a : ℕ) :
    buildB es ns a
      = ((es.filter (·.active)).map (fun e => contribB ns e a)).sum := by
  unfold buildB
  suffices h : ∀ (l : List Edge) (acc : ℕ → Vec3),
      (l.foldl
        (fun acc e =>
          if e.active then (fun a => acc a + contribB ns e a) else acc)
        acc) a
        = acc a + ((l.filter (·.active)).map (fun e => contribB ns e a)).sum by
    simpa using h es (fun _ => 0)
  intro l
  induction l with
  | nil => intro acc; simp
  | cons e t ih =>
    intro acc
    by_cases h : e.active
    · simp [List.filter_cons, h, ih, add_assoc]
    · simp [List.filter_cons, h, ih]

/-- The total cost as the sum of the active edges' weighted squared
residuals. -/
theorem costE_sum (es : List Edge) (ns : List Node) :
    costE es ns
      = ((es.filter (·.active)).map
          (fun e => qform e.info (edgeResidual ns e))).sum := by
  unfold costE
  simpa using
    foldl_active_sum (fun e => qform e.info (edgeResidual ns e)) es 0

/-- C1: the Linear System Builder assembles, block by block, `H` as the sum
over the active edges of J^T·Ω·J and `b` as the sum over the active edges
of J^T·Ω·e, the residual and the Jacobians being those of the
Measurement/Error Model at the current node estimates. -/
theorem builder_assembles_normal_equations (g : GraphStore) (ns : List Node)
    (a b : ℕ) :
    buildH g.edges ns a b
      = ((activeEdges g).map (fun e => contribH ns e a b)).sum ∧
    buildB g.edges ns a
      = ((activeEdges g).map (fun e => contribB ns e a)).sum := by
  exact ⟨buildH_block g.edges ns a b, buildB_block g.edges ns a⟩

/-- C3: `add_edge` fails with InvalidReference exactly when one of the
referenced node ids is unknown (nodes are never destroyed in the model, so
unknown ids are the only invalid references), fails with IllConditioned
exactly when both ids are known but the information matrix fails the PSD
test, and every failure leaves the store unchanged. -/
theorem addEdge_failure_modes (g : GraphStore) (ty : EdgeType) (i j : ℕ)
    (z : Vec3) (om : Mat3) :
    ((addEdge g ty i j z om).2 = .error .invalidReference ↔
      (lookupNode g.nodes i = none ∨ lookupNode g.nodes j = none)) ∧
    ((addEdge g ty i j z om).2 = .error .illConditioned ↔
      (lookupNode g.nodes i ≠ none ∧ lookupNode g.nodes j ≠ none ∧
        isPSD3 om = false)) ∧
    (∀ er : SlamError,
      (addEdge g ty i j z om).2 = .error er → (addEdge g ty i j z om).1 = g) := by
  by_cases h1 : ((lookupNode g.nodes i).isNone || (lookupNode g.nodes j).isNone) = true
  · have h1' : lookupNode g.nodes i = none ∨ lookupNode g.nodes j = none := by
      simpa [Option.isNone_iff_eq_none] using h1
    refine ⟨by simp [addEdge, h1, h1'], ⟨?_, ?_⟩⟩
    · simp only [addEdge, if_pos h1]
      constructor
      · intro h; cases h
      · rintro ⟨hi, hj, -⟩
        rcases h1' with h | h
        · exact absurd h hi
        · exact absurd h hj
    · intro er h
      simp [addEdge, h1]
  · have hi : lookupNode g.nodes i ≠ none := by
      simp only [Bool.or_eq_true, Option.isNone_iff_eq_none] at h1
      push_neg at h1
      exact h1.1
    have hj : lookupNode g.nodes j ≠ none := by
      simp only [Bool.or_eq_true, Option.isNone_iff_eq_none] at h1
      push_neg at h1
      exact h1.2
    by_cases h2 : isPSD3 om = true
    · refine ⟨?_, ?_, ?_⟩
      · simp [addEdge, h1, h2, hi, hj]
      · simp [addEdge, h1, h2]
      · intro er h
        simp [addEdge, h1, h2] at h
    · have h2' : isPSD3 om = false := by
        simpa using h2
      refine ⟨?_, ?_, ?_⟩
      · simp only [addEdge, if_neg h1, h2', Bool.not_false, if_pos]
        constructor
        · intro h; cases h
        · rintro (h | h)
          · exact absurd h hi
          · exact absurd h hj
      · simp [addEdge, h1, h2', hi, hj]
      · intro er h
        simp [addEdge, h1, h2']

/-- Witness for C3 at a concrete call: adding an edge that refers to an
unknown node id fails and leaves the empty store untouched. -/
theorem addEdge_failure_modes_witness :
    (addEdge ⟨[], [], 0, 0⟩ .odometry 0 1 (0, 0, 0) id3).2
        = .error .invalidReference ∧
    (addEdge ⟨[], [], 0, 0⟩ .odometry 0 1 (0, 0, 0) id3).1 = ⟨[], [], 0, 0⟩ := by
  refine ⟨?_, ?_⟩
  · exact (addEdge_failure_modes ⟨[], [], 0, 0⟩ .odometry 0 1 (0, 0, 0) id3).1.2
      (Or.inl (by with_unfolding_all rfl))
  · exact (addEdge_failure_modes ⟨[], [], 0, 0⟩ .odometry 0 1 (0, 0, 0) id3).2.2
      .invalidReference
      ((addEdge_failure_modes ⟨[], [], 0, 0⟩ .odometry 0 1 (0, 0, 0) id3).1.2
        (Or.inl (by with_unfolding_all rfl)))

/-- Deactivating an edge and physically removing it leave exactly the same
active-edge sublist. -/
theorem filter_active_deactivate (g : GraphStore) (e : ℕ) :
    (deactivateEdge g e).edges.filter (·.active)
      = (removeEdge g e).edges.filter (·.active) := by
  show (g.edges.map (fun ed =>
      if ed.eid == e then { ed with active := false } else ed)).filter
      (·.active)
    = (g.edges.filter (fun ed => !(ed.eid == e))).filter (·.active)
  induction g.edges with
  | nil => rfl
  | cons ed t ih =>
    simp only [beq_iff_eq] at ih ⊢
    by_cases he : ed.eid = e
    · simp [List.filter_cons, he, ih]
    · by_cases ha : ed.active = true
      · simp [List.filter_cons, he, ha, ih]
      · have ha' : ed.active = false := by simpa using ha
        simp [List.filter_cons, he, ha', ih]

/-- The two stores of the deactivation property agree on every builder
block and on the cost, at every estimate. -/
theorem deactivate_remove_same_system (g : GraphStore) (e : ℕ)
    (ns : List Node) :
    buildH (deactivateEdge g e).edges ns = buildH (removeEdge g e).edges ns ∧
    buildB (deactivateEdge g e).edges ns = buildB (removeEdge g e).edges ns ∧
    costE (deactivateEdge g e).edges ns = costE (removeEdge g e).edges ns := by
  have hfilter := filter_active_deactivate g e
  refine ⟨?_, ?_, ?_⟩
  · funext a b
    rw [buildH_block, buildH_block, hfilter]
  · funext a
    rw [buildB_block, buildB_block, hfilter]
  · rw [costE_sum, costE_sum, hfilter]

/-- The damped solves of the two stores coincide at every estimate and
damping. -/
theorem deactivate_remove_same_solve (g : GraphStore) (e : ℕ)
    (ns : List Node) (lam : ℚ) :
    solveDamped (deactivateEdge g e).edges ns lam
      = solveDamped (removeEdge g e).edges ns lam := by
  obtain ⟨hH, hB, -⟩ := deactivate_remove_same_system g e ns
  unfold solveDamped gaussSolve flatH flatB
  rw [hH, hB]

/-- The retry loops of the two stores coincide. -/
theorem deactivate_remove_same_attempt (g : GraphStore) (e : ℕ) :
    ∀ (r : ℕ) (ns : List Node) (lam : ℚ),
      attemptStep (deactivateEdge g e).edges ns lam r
        = attemptStep (removeEdge g e).edges ns lam r := by
  intro r
  induction r with
  | zero => intro ns lam; rfl
  | succ r ih =>
    intro ns lam
    simp only [attemptStep]
    rw [deactivate_remove_same_solve g e ns lam]
    cases hdx : solveDamped (removeEdge g e).edges ns lam with
    | none => rfl
    | some dx =>
      obtain ⟨-, -, hc⟩ :=
        deactivate_remove_same_system g e (applyUpdate ns dx)
      obtain ⟨-, -, hc'⟩ := deactivate_remove_same_system g e ns
      simp only [hc, hc', ih]

/-- The full solver runs of the two stores coincide. -/
theorem deactivate_remove_same_solver (g : GraphStore) (e : ℕ) (eps : ℚ)
    (rb : ℕ) :
    ∀ (it : ℕ) (ns : List Node) (lam : ℚ),
      lmLoop eps (deactivateEdge g e).edges ns lam rb it
        = lmLoop eps (removeEdge g e).edges ns lam rb it := by
  intro it
  induction it with
  | zero => intro ns lam; rfl
  | succ it ih =>
    intro ns lam
    simp only [lmLoop]
    rw [deactivate_remove_same_attempt g e rb ns lam]
    cases hr : attemptStep (removeEdge g e).edges ns lam rb with
    | singular => rfl
    | exhausted => rfl
    | accepted cand lam' =>
      obtain ⟨-, -, hc⟩ := deactivate_remove_same_system g e cand
      obtain ⟨-, -, hc'⟩ := deactivate_remove_same_system g e ns
      simp only [hc, hc', ih]

/-- C7: deactivating an edge and re-optimizing matches, exactly, a graph
rebuilt without that edge — identical `H` and `b` blocks, identical total
cost and identical solver runs at every estimate — while the deactivated
edge's identifier (like every other edge identifier) survives in the
store. -/
theorem deactivate_matches_rebuilt_without (g : GraphStore) (e : ℕ)
    (ns : List Node) (eps lam : ℚ) (rb it : ℕ) :
    buildH (deactivateEdge g e).edges ns = buildH (removeEdge g e).edges ns ∧
    buildB (deactivateEdge g e).edges ns = buildB (removeEdge g e).edges ns ∧
    costE (deactivateEdge g e).edges ns = costE (removeEdge g e).edges ns ∧
    lmLoop eps (deactivateEdge g e).edges ns lam rb it
      = lmLoop eps (removeEdge g e).edges ns lam rb it ∧
    (deactivateEdge g e).edges.map Edge.eid = g.edges.map Edge.eid := by
  obtain ⟨hH, hB, hc⟩ := deactivate_remove_same_system g e ns
  refine ⟨hH, hB, hc, deactivate_remove_same_solver g e eps rb it ns lam, ?_⟩
  show (g.edges.map _).map Edge.eid = g.edges.map Edge.eid
  rw [List.map_map]
  apply List.map_congr_left
  intro ed _
  by_cases he : ed.eid = e
  · have hb : (ed.eid == e) = true := by simpa using he
    simp [Function.comp, hb]
  · have hb : (ed.eid == e) = false := by simpa using he
    simp [Function.comp, hb]

/-- The retry loop only ever returns an accepted step: a rejected candidate
never escapes it. -/
theorem attemptStep_accepted (es : List Edge) :
    ∀ (r : ℕ) (ns : List Node) (lam lam' : ℚ) (cand : List Node),
      attemptStep es ns lam r = .accepted cand lam' → AcceptStep es ns cand := by
  intro r
  induction r with
  | zero =>
    intro ns lam lam' cand h
    simp [attemptStep] at h
  | succ r ih =>
    intro ns lam lam' cand h
    simp only [attemptStep] at h
    cases hdx : solveDamped es ns lam with
    | none => rw [hdx] at h; simp at h
    | some dx =>
      rw [hdx] at h
      by_cases hc : costE es (applyUpdate ns dx) ≤ costE es ns
      · simp only [if_pos hc] at h
        obtain ⟨hcand, -⟩ := AttemptResult.accepted.inj h
        exact ⟨lam, dx, hdx, hcand.symm, hcand ▸ hc⟩
      · simp only [if_neg hc] at h
        exact ih ns (lam * 10) lam' cand h

/-- C4: estimates are updated all-or-nothing per iteration — whenever the
solver reports Diverged (retry budget exceeded) or SingularSystem, the
estimate it reports is reachable from the initial one through accepted
steps only (in the failing iteration itself it is exactly the pre-step
estimate), and its cost never exceeds the initial cost; no rejected
candidate is ever reported. -/
theorem solver_failure_preserves_last_good (eps : ℚ) (es : List Edge)
    (rb : ℕ) :
    ∀ (it : ℕ) (ns : List Node) (lam : ℚ),
      ((lmLoop eps es ns lam rb it).1 = .diverged ∨
        (lmLoop eps es ns lam rb it).1 = .singularSystem) →
      Relation.ReflTransGen (AcceptStep es) ns (lmLoop eps es ns lam rb it).2 ∧
      costE es (lmLoop eps es ns lam rb it).2 ≤ costE es ns := by
  intro it
  induction it with
  | zero =>
    intro ns lam h
    rcases h with h | h <;> simp [lmLoop] at h
  | succ it ih =>
    intro ns lam h
    cases hr : attemptStep es ns lam rb with
    | singular =>
      simp only [lmLoop, hr]
      exact ⟨Relation.ReflTransGen.refl, le_rfl⟩
    | exhausted =>
      simp only [lmLoop, hr]
      exact ⟨Relation.ReflTransGen.refl, le_rfl⟩
    | accepted cand lam' =>
      simp only [lmLoop, hr] at h ⊢
      have hstep := attemptStep_accepted es rb ns lam lam' cand hr
      have hcost : costE es cand ≤ costE es ns := by
        obtain ⟨-, -, -, -, hc⟩ := hstep
        exact hc
      by_cases himp : relImprove (costE es ns) (costE es cand) < eps
      · rw [if_pos himp] at h
        rcases h with h | h <;> simp at h
      · rw [if_neg himp] at h
        obtain ⟨hrtg, hc⟩ := ih cand lam' h
        rw [if_neg himp]
        exact ⟨Relation.ReflTransGen.head hstep hrtg, le_trans hc hcost⟩

/-- Witness for C4 at a concrete failing run: a store with one free node
and no edges has a singular (zero) system at damping 0, and the solver
reports SingularSystem with the initial estimates untouched. -/
theorem solver_failure_preserves_last_good_witness :
    Relation.ReflTransGen (AcceptStep ([] : List Edge))
      [⟨0, .pose 0 0 0, true⟩, ⟨1, .pose 0 0 0, false⟩]
      (lmLoop (1 / 100) []
        [⟨0, .pose 0 0 0, true⟩, ⟨1, .pose 0 0 0, false⟩] 0 3 2).2 ∧
    costE [] (lmLoop (1 / 100) []
        [⟨0, .pose 0 0 0, true⟩, ⟨1, .pose 0 0 0, false⟩] 0 3 2).2
      ≤ costE [] [⟨0, .pose 0 0 0, true⟩, ⟨1, .pose 0 0 0, false⟩] :=
  solver_failure_preserves_last_good (1 / 100) [] 3 2
    [⟨0, .pose 0 0 0, true⟩, ⟨1, .pose 0 0 0, false⟩] 0
    (Or.inr (by with_unfolding_all rfl))

/-- Counterexample to C8 as stated: on a well-formed single-anchored-node
store, `add_pose_node` (an O(1) operation that attaches no edge) creates a
node unreachable from the anchor, so the connectivity conjunct of the
invariant is not preserved by every operation. -/
theorem store_invariant_broken_by_addPoseNode :
    wfStore ⟨[⟨0, .pose 0 0 0, true⟩], [], 1, 0⟩ ∧
    ¬ wfStore (addPoseNode ⟨[⟨0, .pose 0 0 0, true⟩], [], 1, 0⟩ 0 0 0).1 := by
  constructor
  · refine ⟨⟨?_, ?_, rfl⟩, ?_⟩
    · intro e he; exact absurd he (List.not_mem_nil e)
    · intro e he; exact absurd he (List.not_mem_nil e)
    · intro n hn
      have hn' : n = ⟨0, .pose 0 0 0, true⟩ := by simpa using hn
      exact ⟨⟨0, .pose 0 0 0, true⟩, by simp, rfl, hn' ▸ Relation.ReflTransGen.refl⟩
  · rintro ⟨-, hconn⟩
    have hmem : (⟨1, .pose 0 0 0, false⟩ : Node) ∈
        (addPoseNode ⟨[⟨0, .pose 0 0 0, true⟩], [], 1, 0⟩ 0 0 0).1.nodes := by
      simp [addPoseNode]
    obtain ⟨a, ha, hanc, hrtg⟩ := hconn _ hmem
    have ha' : a = ⟨0, .pose 0 0 0, true⟩ ∨ a = ⟨1, .pose 0 0 0, false⟩ := by
      simpa [addPoseNode] using ha
    rcases ha' with rfl | rfl
    · rcases hrtg.cases_head with h | ⟨c, ⟨e, he, -⟩, -⟩
      · exact absurd h (by simp)
      · exact absurd he (List.not_mem_nil e)
    · exact absurd hanc (by simp)

/-- A successful lookup is unaffected by appending nodes. -/
theorem lookupNode_append_left (ns ms : List Node) (i : ℕ)
    (h : (lookupNode ns i).isSome = true) :
    lookupNode (ns ++ ms) i = lookupNode ns i := by
  unfold lookupNode at h ⊢
  rw [List.find?_append, Option.or_of_isSome h]

/-- Deactivation changes no edge endpoints, so adjacency is untouched. -/
theorem adjacentIn_deactivate (g : GraphStore) (e a b : ℕ) :
    adjacentIn (deactivateEdge g e) a b ↔ adjacentIn g a b := by
  unfold adjacentIn
  constructor
  · rintro ⟨ed, hm, hij⟩
    obtain ⟨ed0, h0, rfl⟩ := List.mem_map.mp hm
    refine ⟨ed0, h0, ?_⟩
    by_cases he : (ed0.eid == e) = true <;> simpa [he] using hij
  · rintro ⟨ed0, h0, hij⟩
    refine ⟨if ed0.eid == e then { ed0 with active := false } else ed0,
      List.mem_map_of_mem _ h0, ?_⟩
    by_cases he : (ed0.eid == e) = true <;> simpa [he] using hij

/-- A nonempty well-anchored node list is nonempty. -/
theorem nodes_nonempty_of_oneAnchor (g : GraphStore) (hanc : oneAnchor g) :
    g.nodes.isEmpty = false := by
  cases hn : g.nodes with
  | nil =>
    exfalso
    unfold oneAnchor at hanc
    rw [hn] at hanc
    simp at hanc
  | cons a t => rfl

/-- `add_pose_node` preserves the structural invariant and destroys no
node. -/
theorem wfCore_addPoseNode (g : GraphStore) (hwf : wfCore g) (x y th : ℚ) :
    wfCore (addPoseNode g x y th).1 ∧
    g.nodes ⊆ (addPoseNode g x y th).1.nodes := by
  obtain ⟨href, hinf, hanc⟩ := hwf
  have hne := nodes_nonempty_of_oneAnchor g hanc
  refine ⟨⟨?_, ?_, ?_⟩, ?_⟩
  · intro ed hed
    obtain ⟨hi, hj⟩ := href ed hed
    constructor
    · show (lookupNode (g.nodes ++ _) ed.i).isSome = true
      rw [lookupNode_append_left _ _ _ hi]
      exact hi
    · show (lookupNode (g.nodes ++ _) ed.j).isSome = true
      rw [lookupNode_append_left _ _ _ hj]
      exact hj
  · exact hinf
  · unfold oneAnchor at hanc ⊢
    show ((g.nodes ++ [(⟨g.nextNodeId, .pose x y th, g.nodes.isEmpty⟩ : Node)]).filter
      (fun n : Node => n.anchored)).length = 1
    rw [List.filter_append, hne]
    simpa using hanc
  · exact List.subset_append_left _ _

/-- `add_landmark_node` preserves the structural invariant and destroys no
node. -/
theorem wfCore_addLandmarkNode (g : GraphStore) (hwf : wfCore g) (px py : ℚ) :
    wfCore (addLandmarkNode g px py).1 ∧
    g.nodes ⊆ (addLandmarkNode g px py).1.nodes := by
  obtain ⟨href, hinf, hanc⟩ := hwf
  refine ⟨⟨?_, ?_, ?_⟩, ?_⟩
  · intro ed hed
    obtain ⟨hi, hj⟩ := href ed hed
    constructor
    · show (lookupNode (g.nodes ++ _) ed.i).isSome = true
      rw [lookupNode_append_left _ _ _ hi]
      exact hi
    · show (lookupNode (g.nodes ++ _) ed.j).isSome = true
      rw [lookupNode_append_left _ _ _ hj]
      exact hj
  · exact hinf
  · unfold oneAnchor at hanc ⊢
    show ((g.nodes ++ [(⟨g.nextNodeId, .landmark px py, false⟩ : Node)]).filter
      (fun n : Node => n.anchored)).length = 1
    rw [List.filter_append]
    simpa using hanc
  · exact List.subset_append_left _ _

/-- `add_edge` preserves the structural invariant and destroys no node. -/
theorem wfCore_addEdge (g : GraphStore) (hwf : wfCore g) (ty : EdgeType)
    (i j : ℕ) (z : Vec3) (om : Mat3) :
    wfCore (addEdge g ty i j z om).1 ∧
    g.nodes ⊆ (addEdge g ty i j z om).1.nodes := by
  obtain ⟨href, hinf, hanc⟩ := hwf
  by_cases h1 : ((lookupNode g.nodes i).isNone ||
      (lookupNode g.nodes j).isNone) = true
  · have hst : (addEdge g ty i j z om).1 = g := by simp [addEdge, h1]
    rw [hst]
    exact ⟨⟨href, hinf, hanc⟩, fun a ha => ha⟩
  · by_cases h2 : isPSD3 om = true
    · have hi : (lookupNode g.nodes i).isSome = true := by
        simp only [Bool.or_eq_true, Option.isNone_iff_eq_none] at h1
        push_neg at h1
        simpa [Option.isSome_iff_ne_none] using h1.1
      have hj : (lookupNode g.nodes j).isSome = true := by
        simp only [Bool.or_eq_true, Option.isNone_iff_eq_none] at h1
        push_neg at h1
        simpa [Option.isSome_iff_ne_none] using h1.2
      have hst : (addEdge g ty i j z om).1
          = { g with
              edges := g.edges ++ [⟨g.nextEdgeId, ty, i, j, z, om, true⟩],
              nextEdgeId := g.nextEdgeId + 1 } := by
        simp [addEdge, h1, h2]
      rw [hst]
      refine ⟨⟨?_, ?_, ?_⟩, fun a ha => ha⟩
      · intro ed hed
        have hed' : ed ∈ g.edges ∨ ed = ⟨g.nextEdgeId, ty, i, j, z, om, true⟩ := by
          simpa using hed
        show (lookupNode g.nodes ed.i).isSome = true ∧
          (lookupNode g.nodes ed.j).isSome = true
        rcases hed' with hed' | rfl
        · exact href ed hed'
        · exact ⟨hi, hj⟩
      · intro ed hed
        have hed' : ed ∈ g.edges ∨ ed = ⟨g.nextEdgeId, ty, i, j, z, om, true⟩ := by
          simpa using hed
        rcases hed' with hed' | rfl
        · exact hinf ed hed'
        · exact h2
      · exact hanc
    · have h2' : isPSD3 om = false := by simpa using h2
      have hst : (addEdge g ty i j z om).1 = g := by simp [addEdge, h1, h2']
      rw [hst]
      exact ⟨⟨href, hinf, hanc⟩, fun a ha => ha⟩

/-- `deactivate_edge` preserves the structural invariant and destroys no
node. -/
theorem wfCore_deactivateEdge (g : GraphStore) (hwf : wfCore g) (e : ℕ) :
    wfCore (deactivateEdge g e) ∧ g.nodes ⊆ (deactivateEdge g e).nodes := by
  obtain ⟨href, hinf, hanc⟩ := hwf
  refine ⟨⟨?_, ?_, ?_⟩, fun a ha => ha⟩
  · intro ed hed
    obtain ⟨ed0, h0, rfl⟩ := List.mem_map.mp hed
    obtain ⟨hi, hj⟩ := href ed0 h0
    by_cases he : (ed0.eid == e) = true
    · simpa [he] using ⟨hi, hj⟩
    · have he' : (ed0.eid == e) = false := by simpa using he
      simpa [he'] using ⟨hi, hj⟩
  · intro ed hed
    obtain ⟨ed0, h0, rfl⟩ := List.mem_map.mp hed
    have := hinf ed0 h0
    by_cases he : (ed0.eid == e) = true
    · simpa [he] using this
    · have he' : (ed0.eid == e) = false := by simpa using he
      simpa [he'] using this
  · exact hanc

/-- A successful `add_edge` preserves connectivity to the anchor. -/
theorem connected_addEdge (g : GraphStore) (hconn : connectedStore g)
    (ty : EdgeType) (i j : ℕ) (z : Vec3) (om : Mat3) :
    connectedStore (addEdge g ty i j z om).1 := by
  by_cases h1 : ((lookupNode g.nodes i).isNone ||
      (lookupNode g.nodes j).isNone) = true
  · have hst : (addEdge g ty i j z om).1 = g := by simp [addEdge, h1]
    rw [hst]
    exact hconn
  · by_cases h2 : isPSD3 om = true
    · have hst : (addEdge g ty i j z om).1
          = { g with
              edges := g.edges ++ [⟨g.nextEdgeId, ty, i, j, z, om, true⟩],
              nextEdgeId := g.nextEdgeId + 1 } := by
        simp [addEdge, h1, h2]
      rw [hst]
      intro n hn
      obtain ⟨a, ha, hanc', hrtg⟩ := hconn n hn
      refine ⟨a, ha, hanc', Relation.ReflTransGen.mono ?_ hrtg⟩
      rintro u v ⟨ed, hed, hij⟩
      exact ⟨ed, by simp [hed], hij⟩
    · have h2' : isPSD3 om = false := by simpa using h2
      have hst : (addEdge g ty i j z om).1 = g := by simp [addEdge, h1, h2']
      rw [hst]
      exact hconn

/-- `deactivate_edge` preserves connectivity to the anchor (reachability
counts deactivated edges, which stay in the store). -/
theorem connected_deactivateEdge (g : GraphStore) (hconn : connectedStore g)
    (e : ℕ) : connectedStore (deactivateEdge g e) := by
  intro n hn
  obtain ⟨a, ha, hanc', hrtg⟩ := hconn n hn
  refine ⟨a, ha, hanc', Relation.ReflTransGen.mono ?_ hrtg⟩
  intro u v huv
  exact (adjacentIn_deactivate g e u v).mpr huv

/-- C8 amended: every Graph Store operation preserves the structural
invariant — valid edge references, PSD information matrices, a unique
anchor — and never destroys a node; connectivity to the anchor is
preserved by `add_edge` and `deactivate_edge`, but (per the counterexample)
not by node creation, which necessarily precedes the node's first edge. -/
theorem store_invariant_amended (g : GraphStore) (hwf : wfCore g)
    (x y th px py : ℚ) (ty : EdgeType) (i j : ℕ) (z : Vec3) (om : Mat3)
    (e : ℕ) :
    (wfCore (addPoseNode g x y th).1 ∧
      g.nodes ⊆ (addPoseNode g x y th).1.nodes) ∧
    (wfCore (addLandmarkNode g px py).1 ∧
      g.nodes ⊆ (addLandmarkNode g px py).1.nodes) ∧
    (wfCore (addEdge g ty i j z om).1 ∧
      g.nodes ⊆ (addEdge g ty i j z om).1.nodes) ∧
    (wfCore (deactivateEdge g e) ∧
      g.nodes ⊆ (deactivateEdge g e).nodes) ∧
    (connectedStore g → connectedStore (addEdge g ty i j z om).1) ∧
    (connectedStore g → connectedStore (deactivateEdge g e)) :=
  ⟨wfCore_addPoseNode g hwf x y th,
   wfCore_addLandmarkNode g hwf px py,
   wfCore_addEdge g hwf ty i j z om,
   wfCore_deactivateEdge g hwf e,
   fun hc => connected_addEdge g hc ty i j z om,
   fun hc => connected_deactivateEdge g hc e⟩

/-- Witness for C8 (amended) at a well-formed one-node store. -/
theorem store_invariant_amended_witness :
    (wfCore (addPoseNode ⟨[⟨0, .pose 0 0 0, true⟩], [], 1, 0⟩ 0 0 0).1 ∧
      (⟨[⟨0, .pose 0 0 0, true⟩], [], 1, 0⟩ : GraphStore).nodes ⊆
        (addPoseNode ⟨[⟨0, .pose 0 0 0, true⟩], [], 1, 0⟩ 0 0 0).1.nodes) ∧
    (wfCore (addLandmarkNode ⟨[⟨0, .pose 0 0 0, true⟩], [], 1, 0⟩ 0 0).1 ∧
      (⟨[⟨0, .pose 0 0 0, true⟩], [], 1, 0⟩ : GraphStore).nodes ⊆
        (addLandmarkNode ⟨[⟨0, .pose 0 0 0, true⟩], [], 1, 0⟩ 0 0).1.nodes) ∧
    (wfCore (addEdge ⟨[⟨0, .pose 0 0 0, true⟩], [], 1, 0⟩
        .odometry 0 0 (0, 0, 0) id3).1 ∧
      (⟨[⟨0, .pose 0 0 0, true⟩], [], 1, 0⟩ : GraphStore).nodes ⊆
        (addEdge ⟨[⟨0, .pose 0 0 0, true⟩], [], 1, 0⟩
          .odometry 0 0 (0, 0, 0) id3).1.nodes) ∧
    (wfCore (deactivateEdge ⟨[⟨0, .pose 0 0 0, true⟩], [], 1, 0⟩ 0) ∧
      (⟨[⟨0, .pose 0 0 0, true⟩], [], 1, 0⟩ : GraphStore).nodes ⊆
        (deactivateEdge ⟨[⟨0, .pose 0 0 0, true⟩], [], 1, 0⟩ 0).nodes) ∧
    (connectedStore ⟨[⟨0, .pose 0 0 0, true⟩], [], 1, 0⟩ →
      connectedStore (addEdge ⟨[⟨0, .pose 0 0 0, true⟩], [], 1, 0⟩
        .odometry 0 0 (0, 0, 0) id3).1) ∧
    (connectedStore ⟨[⟨0, .pose 0 0 0, true⟩], [], 1, 0⟩ →
      connectedStore (deactivateEdge ⟨[⟨0, .pose 0 0 0, true⟩], [], 1, 0⟩ 0)) :=
  store_invariant_amended ⟨[⟨0, .pose 0 0 0, true⟩], [], 1, 0⟩
    ⟨fun e he => absurd he (List.not_mem_nil e),
     fun e he => absurd he (List.not_mem_nil e), rfl⟩
    0 0 0 0 0 .odometry 0 0 (0, 0, 0) id3 0

/-- C9: on the 4-node square loop with noise-free odometry, the total
weighted residual cost is zero and the Levenberg-Marquardt solver
converges within a single iteration (iteration budget 1), reporting the
estimates unchanged. -/
theorem square_loop_converges_to_zero_cost :
    costE squareLoop.edges squareLoop.nodes = 0 ∧
    lmLoop (1 / 100) squareLoop.edges squareLoop.nodes 1 3 1
      = (.converged, squareLoop.nodes) := by
  constructor
  · with_unfolding_all rfl
  · with_unfolding_all rfl

end Slam
